import Mathlib

/-!
Verification of the ghost-cursor trajectory library.

The embedding translates the current revision of `src/spoof.ts` together with
the vector / curve module (`math.ts`, present as `src/unnamed/part_005`).
Pure numeric code over JS numbers is modelled over `ℚ` where the source only
uses field operations (so every definition is executable), and over `ℝ` where
the source calls `Math.sqrt` / `Math.log2`.  Randomness (`Math.random()`) is
made explicit: every random draw becomes an argument of the function that
consumes it.
-/

namespace GhostCursor

/-- A screen-space vector `{x, y}` (`Vector` in `math.ts`), parametric in the
number type so that the executable parts can live over `ℚ`. -/
structure Vec (α : Type) where
  x : α
  y : α
deriving DecidableEq, Repr

/-- A bounding box `{x, y, width, height}` (puppeteer's `BoundingBox`). -/
structure BoundingBox (α : Type) where
  x : α
  y : α
  width : α
  height : α
deriving DecidableEq, Repr

/-- `clamp` from `math.ts`: `Math.min(max, Math.max(min, target))`. -/
def clamp {α : Type} [LinearOrder α] (target mn mx : α) : α :=
  min mx (max mn target)

/-- JS `Math.round`: rounds half toward positive infinity,
`Math.round x = ⌊x + 1/2⌋`. -/
noncomputable def jsRound (r : ℝ) : ℤ := ⌊r + 1 / 2⌋

/-! ## The sampled cubic curve (`path`, `clampPositive` in `spoof.ts`)

`path` builds a cubic Bezier from `start` to the destination with two random
anchors, computes a step count, samples the curve with `curve.getLUT(steps)`
(bezier-js: `steps+1` points at parameters `i/steps`, with a `steps || 100`
guard for a falsy argument) and clamps all coordinates through
`clampPositive`.  The random anchors and the step count are abstracted as
arguments here; the step-count formula itself is modelled separately below. -/

/-- Point of the cubic Bezier with control points `p0 p1 p2 p3` at parameter
`t` (bernstein form, what bezier-js `compute` evaluates). -/
def cubicPoint (p0 p1 p2 p3 : Vec ℚ) (t : ℚ) : Vec ℚ :=
  ⟨(1 - t) ^ 3 * p0.x + 3 * (1 - t) ^ 2 * t * p1.x + 3 * (1 - t) * t ^ 2 * p2.x + t ^ 3 * p3.x,
   (1 - t) ^ 3 * p0.y + 3 * (1 - t) ^ 2 * t * p1.y + 3 * (1 - t) * t ^ 2 * p2.y + t ^ 3 * p3.y⟩

/-- bezier-js `getLUT(steps)`: `steps = steps || 100`, then the `steps + 1`
points `compute(i / steps)` for `i = 0 .. steps`. -/
def getLUT (p0 p1 p2 p3 : Vec ℚ) (steps : ℕ) : List (Vec ℚ) :=
  let s := if steps = 0 then 100 else steps
  (List.range (s + 1)).map fun (i : ℕ) => cubicPoint p0 p1 p2 p3 ((i : ℚ) / (s : ℚ))

/-- Coordinatewise clamp of a point to nonnegative values (`Math.max(0, ·)`
on each coordinate, from `clampPositive` in `spoof.ts`). -/
def clampVec (v : Vec ℚ) : Vec ℚ := ⟨max 0 v.x, max 0 v.y⟩

/-- `clampPositive` from `spoof.ts` (coordinate part): clamp every vector of
the lookup table to nonnegative coordinates. -/
def clampPositive (vectors : List (Vec ℚ)) : List (Vec ℚ) :=
  vectors.map clampVec

/-- The point sequence returned by `path(start, end, options)`: sample the
cubic `(start, a1, a2, finish)` (where `finish = (end.x, end.y)`, the anchors
`a1 a2` are the random Bezier anchors) at `steps` lookup-table parameters and
clamp to nonnegative coordinates.  `steps` abstracts the computed step count. -/
def pathPoints (start finish a1 a2 : Vec ℚ) (steps : ℕ) : List (Vec ℚ) :=
  clampPositive (getLUT start a1 a2 finish steps)

/-! ### C1, C2: endpoints and nonnegativity of the sampled path -/

lemma cubicPoint_zero (p0 p1 p2 p3 : Vec ℚ) : cubicPoint p0 p1 p2 p3 0 = p0 := by
  simp [cubicPoint]

lemma cubicPoint_one (p0 p1 p2 p3 : Vec ℚ) : cubicPoint p0 p1 p2 p3 1 = p3 := by
  simp [cubicPoint]

lemma clampVec_of_nonneg {v : Vec ℚ} (hx : 0 ≤ v.x) (hy : 0 ≤ v.y) : clampVec v = v := by
  cases v
  simp_all [clampVec, max_eq_right]

/-- C1 (amended): for every start, destination, pair of anchors and step
count, the sequence returned by `path` is non-empty, its first element is the
coordinatewise clamp `max(0, ·)` of `start` and its last element is the clamp
of the destination `(end.x, end.y)`; when the respective coordinates are
nonnegative these are exactly `start` and exactly the destination. -/
theorem path_endpoints (start finish a1 a2 : Vec ℚ) (steps : ℕ) :
    pathPoints start finish a1 a2 steps ≠ []
    ∧ (pathPoints start finish a1 a2 steps).head? = some (clampVec start)
    ∧ (pathPoints start finish a1 a2 steps).getLast? = some (clampVec finish)
    ∧ (0 ≤ start.x ∧ 0 ≤ start.y → (pathPoints start finish a1 a2 steps).head? = some start)
    ∧ (0 ≤ finish.x ∧ 0 ≤ finish.y →
        (pathPoints start finish a1 a2 steps).getLast? = some finish) := by
  have hs0 : (if steps = 0 then 100 else steps) ≠ 0 := by
    by_cases h : steps = 0 <;> simp [h]
  have hhead : (pathPoints start finish a1 a2 steps).head? = some (clampVec start) := by
    rw [pathPoints, clampPositive, getLUT]
    rw [List.head?_map, List.head?_map, List.range_succ_eq_map]
    simp [cubicPoint]
  have hlast : (pathPoints start finish a1 a2 steps).getLast? = some (clampVec finish) := by
    rw [pathPoints, clampPositive, getLUT]
    rw [List.getLast?_map, List.getLast?_map, List.range_succ, List.getLast?_concat]
    by_cases h : steps = 0
    · simp [h, cubicPoint_one, show (100 : ℚ) / 100 = 1 by norm_num]
    · have h2 : (steps : ℚ) ≠ 0 := Nat.cast_ne_zero.mpr h
      simp [h, div_self h2, cubicPoint_one]
  refine ⟨?_, hhead, hlast, ?_, ?_⟩
  · rw [pathPoints, clampPositive, getLUT]
    simp
  · rintro ⟨hx, hy⟩
    rw [hhead, clampVec_of_nonneg hx hy]
  · rintro ⟨hx, hy⟩
    rw [hlast, clampVec_of_nonneg hx hy]

/-- C1 witness: the amended endpoint equalities evaluated at a concrete
nonnegative input. -/
theorem path_endpoints_witness :
    ((0 : ℚ) ≤ 1 ∧ (0 : ℚ) ≤ 2)
    ∧ (pathPoints ⟨1, 2⟩ ⟨3, 4⟩ ⟨5, 6⟩ ⟨7, 8⟩ 2).head? = some ⟨1, 2⟩
    ∧ (pathPoints ⟨1, 2⟩ ⟨3, 4⟩ ⟨5, 6⟩ ⟨7, 8⟩ 2).getLast? = some ⟨3, 4⟩ :=
  ⟨⟨by norm_num, by norm_num⟩,
   (path_endpoints ⟨1, 2⟩ ⟨3, 4⟩ ⟨5, 6⟩ ⟨7, 8⟩ 2).2.2.2.1 ⟨by norm_num, by norm_num⟩,
   (path_endpoints ⟨1, 2⟩ ⟨3, 4⟩ ⟨5, 6⟩ ⟨7, 8⟩ 2).2.2.2.2 ⟨by norm_num, by norm_num⟩⟩

/-- C1 counterexample: with a negative start coordinate the first returned
point is the clamp of `start`, not `start` itself — `path((-5, 3), (7, 8))`
starts at `(0, 3)`. -/
theorem path_first_point_clamped :
    (pathPoints ⟨-5, 3⟩ ⟨7, 8⟩ ⟨0, 0⟩ ⟨0, 0⟩ 1).head? ≠ some ⟨-5, 3⟩ := by
  norm_num [pathPoints, clampPositive, getLUT, clampVec, cubicPoint, List.range_succ]

/-- C2: every point returned by `path` has nonnegative coordinates, for all
inputs (including negative start/end coordinates): `clampPositive` maps
`Math.max(0, ·)` over both coordinates of every sampled point. -/
theorem path_nonneg (start finish a1 a2 : Vec ℚ) (steps : ℕ) :
    ∀ p ∈ pathPoints start finish a1 a2 steps, 0 ≤ p.x ∧ 0 ≤ p.y := by
  intro p hp
  rw [pathPoints, clampPositive] at hp
  obtain ⟨q, -, rfl⟩ := List.mem_map.mp hp
  exact ⟨le_max_left 0 q.x, le_max_left 0 q.y⟩

/-- C2 witness: nonnegativity evaluated on a concrete member of a concrete
path (with a negative start coordinate). -/
theorem path_nonneg_witness :
    ((⟨0, 3⟩ : Vec ℚ) ∈ pathPoints ⟨-5, 3⟩ ⟨7, 8⟩ ⟨0, 0⟩ ⟨0, 0⟩ 1)
    ∧ 0 ≤ ((⟨0, 3⟩ : Vec ℚ)).x ∧ 0 ≤ ((⟨0, 3⟩ : Vec ℚ)).y :=
  ⟨by norm_num [pathPoints, clampPositive, getLUT, clampVec, cubicPoint, List.range_succ],
   path_nonneg ⟨-5, 3⟩ ⟨7, 8⟩ ⟨0, 0⟩ ⟨0, 0⟩ 1 ⟨0, 3⟩
     (by norm_num [pathPoints, clampPositive, getLUT, clampVec, cubicPoint, List.range_succ])⟩

/-! ## The vector module over ℝ (`math.ts`)

These definitions involve `Math.sqrt`, so they live over `ℝ` with
`Real.sqrt`; randomness is passed explicitly (`Math.random()` draws become
the arguments `r`, `r1`, ..., `sideRand`). -/

noncomputable section

/-- `sub` from `math.ts`. -/
def sub (a b : Vec ℝ) : Vec ℝ := ⟨a.x - b.x, a.y - b.y⟩

/-- `div` from `math.ts`. -/
def div (a : Vec ℝ) (b : ℝ) : Vec ℝ := ⟨a.x / b, a.y / b⟩

/-- `mult` from `math.ts`. -/
def mult (a : Vec ℝ) (b : ℝ) : Vec ℝ := ⟨a.x * b, a.y * b⟩

/-- `add` from `math.ts`. -/
def add (a b : Vec ℝ) : Vec ℝ := ⟨a.x + b.x, a.y + b.y⟩

/-- `direction` from `math.ts`: `sub(b, a)`. -/
def direction (a b : Vec ℝ) : Vec ℝ := sub b a

/-- `perpendicular` from `math.ts`. -/
def perpendicular (a : Vec ℝ) : Vec ℝ := ⟨a.y, -1 * a.x⟩

/-- `magnitude` from `math.ts`: `Math.sqrt(x² + y²)`. -/
def magnitude (a : Vec ℝ) : ℝ := Real.sqrt (a.x ^ 2 + a.y ^ 2)

/-- `unit` from `math.ts`. -/
def unit (a : Vec ℝ) : Vec ℝ := div a (magnitude a)

/-- `setMagnitude` from `math.ts`. -/
def setMagnitude (a : Vec ℝ) (amount : ℝ) : Vec ℝ := mult (unit a) amount

/-- `randomVectorOnLine` from `math.ts`; `r` is the `Math.random()` draw. -/
def randomVectorOnLine (r : ℝ) (a b : Vec ℝ) : Vec ℝ := add a (mult (direction a b) r)

/-- `randomNormalLine` from `math.ts`. -/
def randomNormalLine (r : ℝ) (a b : Vec ℝ) (range : ℝ) : Vec ℝ × Vec ℝ :=
  let randMid := randomVectorOnLine r a b
  (randMid, setMagnitude (perpendicular (direction a randMid)) range)

/-- The inner `calc` closure of `generateBezierAnchors` in `math.ts`. -/
def calcAnchor (r1 r2 : ℝ) (a b : Vec ℝ) (spread side : ℝ) : Vec ℝ :=
  let mn := randomNormalLine r1 a b spread
  randomVectorOnLine r2 mn.1 (add mn.1 (mult mn.2 side))

/-- `[p, q].sort((a, b) => a.x - b.x)` on a two-element array: swap exactly
when the comparator is positive, i.e. when `p.x > q.x`. -/
def sort2ByX (p q : Vec ℝ) : Vec ℝ × Vec ℝ := if p.x ≤ q.x then (p, q) else (q, p)

/-- `generateBezierAnchors` from `math.ts`: one `side` draw, two anchor
computations, then the sort by ascending x. -/
def generateBezierAnchors (sideRand r1 r2 r3 r4 : ℝ) (a b : Vec ℝ) (spread : ℝ) :
    Vec ℝ × Vec ℝ :=
  let side : ℝ := if jsRound sideRand = 1 then 1 else -1
  sort2ByX (calcAnchor r1 r2 a b spread side) (calcAnchor r3 r4 a b spread side)

/-- C9: for all points `a`, `b`, every spread and all random draws,
`generateBezierAnchors` returns two anchors ordered by ascending
x-coordinate. -/
theorem anchors_sorted_by_x (sideRand r1 r2 r3 r4 : ℝ) (a b : Vec ℝ) (spread : ℝ) :
    (generateBezierAnchors sideRand r1 r2 r3 r4 a b spread).1.x ≤
      (generateBezierAnchors sideRand r1 r2 r3 r4 a b spread).2.x := by
  unfold generateBezierAnchors sort2ByX
  dsimp only
  split_ifs with h1 h2 h3
  · exact h2
  · exact le_of_not_le h2
  · exact h3
  · exact le_of_not_le h3

/-! ## Overshoot decision (`shouldOvershoot` and `move` in `spoof.ts`) -/

/-- `shouldOvershoot(a, b, threshold)` from `spoof.ts`:
`magnitude(direction(a, b)) > threshold`. -/
def shouldOvershoot (a b : Vec ℝ) (threshold : ℝ) : Prop :=
  magnitude (direction a b) > threshold

/-- The trajectories dispatched by one `move` attempt: either one direct
trajectory, or an overshoot trajectory followed by a correction trajectory. -/
inductive MovePlan where
  | direct (dest : Vec ℝ)
  | overshootCorrect (over dest : Vec ℝ)

open Classical in
/-- The dispatch decision in `GhostCursor.move`: if
`shouldOvershoot(location, destination, threshold)` then move to the random
overshoot point `over` and then correct to `destination`, else move directly.
`over` abstracts the `overshoot(destination, OVERSHOOT_RADIUS)` draw. -/
def movePlan (loc dest over : Vec ℝ) (threshold : ℝ) : MovePlan :=
  if shouldOvershoot loc dest threshold then .overshootCorrect over dest else .direct dest

/-- Default of `optionsResolved.overshootThreshold` in `GhostCursor.move`. -/
def defaultOvershootThreshold : ℝ := 500

lemma magnitude_vertical (y : ℝ) (hy : 0 ≤ y) :
    magnitude (direction ⟨0, 0⟩ ⟨0, y⟩) = y := by
  simp [magnitude, direction, sub]
  rw [Real.sqrt_sq hy]

/-- C3: a move dispatches an overshoot trajectory plus a correction
trajectory iff the Euclidean distance from the current location to the
destination strictly exceeds the threshold (default 500); otherwise it
dispatches exactly one direct trajectory.  Concretely, from `(0,0)`:
destination `(0,499)` and `(0,500)` give a direct move, `(0,501)` gives
overshoot plus correction. -/
theorem overshoot_decision :
    (∀ loc dest over threshold,
      movePlan loc dest over threshold = .overshootCorrect over dest ↔
        magnitude (direction loc dest) > threshold)
    ∧ (∀ over, movePlan ⟨0, 0⟩ ⟨0, 499⟩ over defaultOvershootThreshold = .direct ⟨0, 499⟩)
    ∧ (∀ over, movePlan ⟨0, 0⟩ ⟨0, 500⟩ over defaultOvershootThreshold = .direct ⟨0, 500⟩)
    ∧ (∀ over, movePlan ⟨0, 0⟩ ⟨0, 501⟩ over defaultOvershootThreshold =
        .overshootCorrect over ⟨0, 501⟩) := by
  refine ⟨?_, ?_, ?_, ?_⟩
  · intro loc dest over threshold
    by_cases h : magnitude (direction loc dest) > threshold
    · simp [movePlan, shouldOvershoot, h]
    · simp [movePlan, shouldOvershoot, h]
  · intro over
    rw [movePlan, if_neg]
    rw [shouldOvershoot, magnitude_vertical 499 (by norm_num), defaultOvershootThreshold]
    norm_num
  · intro over
    rw [movePlan, if_neg]
    rw [shouldOvershoot, magnitude_vertical 500 (by norm_num), defaultOvershootThreshold]
    norm_num
  · intro over
    rw [movePlan, if_pos]
    rw [shouldOvershoot, magnitude_vertical 501 (by norm_num), defaultOvershootThreshold]
    norm_num

end

/-! ## The retry loop of `GhostCursor.move` (`go(iteration)` in `spoof.ts`)

`go(iteration)` throws once `iteration > maxTries`; otherwise it performs one
full attempt (acquire target, dispatch trajectories, verify arrival) and on
verification failure recurses with `go(iteration + 1)`.  The whole call is
`go(0)`.  `verify i` abstracts the arrival check of attempt number `i`
(`intersectsElement(location, newBoundingBox)`); the result carries the
number of attempts performed: `Except.ok n` for success after `n` attempts,
`Except.error n` for the `MaxRetriesExceeded` throw after `n` attempts. -/

def moveGo (verify : ℕ → Bool) (maxTries : ℕ) (iteration : ℕ) : Except ℕ ℕ :=
  if _h : iteration > maxTries then Except.error iteration
  else if verify iteration then Except.ok (iteration + 1)
  else moveGo verify maxTries (iteration + 1)
termination_by maxTries + 1 - iteration
decreasing_by omega

lemma moveGo_error_of_never (verify : ℕ → Bool) (hv : ∀ i, verify i = false)
    (maxTries : ℕ) : ∀ k iteration, maxTries + 1 = iteration + k →
    moveGo verify maxTries iteration = Except.error (maxTries + 1) := by
  intro k
  induction k with
  | zero =>
    intro iteration h
    unfold moveGo
    rw [dif_pos (by omega)]
    have h2 : iteration = maxTries + 1 := by omega
    rw [h2]
  | succ k ih =>
    intro iteration h
    unfold moveGo
    rw [dif_neg (by omega), hv iteration]
    simp only [Bool.false_eq_true, if_false]
    exact ih (iteration + 1) (by omega)

/-- C4 (amended): if arrival verification never succeeds, `move` throws
`MaxRetriesExceeded` after exactly `maxTries + 1` attempts (11 attempts with
the default `maxTries = 10`), because `go` starts at iteration 0 and only
throws once `iteration > maxTries`. -/
theorem move_retry_cap (maxTries : ℕ) (verify : ℕ → Bool) (hv : ∀ i, verify i = false) :
    moveGo verify maxTries 0 = Except.error (maxTries + 1) :=
  moveGo_error_of_never verify hv maxTries (maxTries + 1) 0 (by omega)

/-- C4 counterexample: with the default `maxTries = 10` and verification
always failing, the error is thrown after 11 attempts, not after exactly 10
as claimed. -/
theorem move_retry_eleven :
    moveGo (fun _ => false) 10 0 = Except.error 11 ∧ (11 : ℕ) ≠ 10 :=
  ⟨moveGo_error_of_never (fun _ => false) (fun _ => rfl) 10 11 0 rfl, by decide⟩

/-- C4 witness: the amended retry bound evaluated at `maxTries = 2`. -/
theorem move_retry_cap_witness : moveGo (fun _ => false) 2 0 = Except.error 3 :=
  move_retry_cap 2 (fun _ => false) (fun _ => rfl)

/-! ## Step-count derivation in `path` (`spoof.ts` lines 782-793)

`Math.log2` forces this part over `ℝ` (`Real.logb 2`).  The `Math.random()`
draw used when no positive `moveSpeed` is supplied is the explicit argument
`rand`; the curve's arc length (`curve.length()`, computed numerically by
bezier-js) is the abstract argument `curveLength`. -/

noncomputable section

/-- `fitts(distance, width)` from `spoof.ts`: `a = 0`, `b = 2`,
`id = log2(distance / width + 1)`, returning `a + b * id`. -/
def fitts (distance width : ℝ) : ℝ := 0 + 2 * Real.logb 2 (distance / width + 1)

/-- The `end` argument of `path`: a plain point or a bounding box. -/
inductive PathEnd where
  | point (v : Vec ℝ)
  | box (b : BoundingBox ℝ)

/-- `'width' in end && end.width !== 0 ? end.width : DEFAULT_WIDTH` with
`DEFAULT_WIDTH = 100`. -/
def pathWidth (pend : PathEnd) : ℝ :=
  match pend with
  | .point _ => 100
  | .box b => if b.width ≠ 0 then b.width else 100

/-- `optionsResolved.moveSpeed !== undefined && optionsResolved.moveSpeed > 0
? (25 / optionsResolved.moveSpeed) : Math.random()`. -/
def resolveSpeed (moveSpeed : Option ℝ) (rand : ℝ) : ℝ :=
  match moveSpeed with
  | some s => if 0 < s then 25 / s else rand
  | none => rand

/-- The `steps` value computed by `path`:
`Math.ceil((Math.log2(fitts(length, width) + 1) + baseTime) * 3)` with
`length = curve.length() * 0.8`, `baseTime = speed * MIN_STEPS` and
`MIN_STEPS = 25`. -/
def stepCount (pend : PathEnd) (curveLength : ℝ) (moveSpeed : Option ℝ) (rand : ℝ) : ℤ :=
  let width := pathWidth pend
  let length := curveLength * 0.8
  let speed := resolveSpeed moveSpeed rand
  let baseTime := speed * 25
  ⌈(Real.logb 2 (fitts length width + 1) + baseTime) * 3⌉

/-- The step count exactly as the specification words it:
`stepCount = ceil((log2(movementTime + 1) + baseSteps) * 3)` with
`movementTime = b * id`, `id = log2(arcLength / width + 1)`, `b = 2`,
`arcLength = 0.8 * curve length`, `baseSteps = speedTerm * 25`, `speedTerm =
25 / moveSpeed` when a positive `moveSpeed` is supplied and a uniform draw
otherwise, and `width = end.width` for a rectangle of nonzero width, else
100. -/
def stepCountClaim (pend : PathEnd) (curveLength : ℝ) (moveSpeed : Option ℝ) (rand : ℝ) : ℤ :=
  let arcLength := 0.8 * curveLength
  let width :=
    match pend with
    | .box b => if b.width ≠ 0 then b.width else 100
    | .point _ => 100
  let speedTerm :=
    match moveSpeed with
    | some s => if 0 < s then 25 / s else rand
    | none => rand
  let baseSteps := speedTerm * 25
  let movementTime := 2 * Real.logb 2 (arcLength / width + 1)
  ⌈(Real.logb 2 (movementTime + 1) + baseSteps) * 3⌉

/-- C6: for every call of `path` the computed number of steps equals the
formula of the claim, for every kind of destination, every curve length,
every optional `moveSpeed` and every random draw. -/
theorem step_count_formula (pend : PathEnd) (curveLength : ℝ) (moveSpeed : Option ℝ)
    (rand : ℝ) :
    stepCount pend curveLength moveSpeed rand = stepCountClaim pend curveLength moveSpeed rand := by
  unfold stepCount stepCountClaim fitts pathWidth resolveSpeed
  cases pend <;> cases moveSpeed <;> ring_nf

end

/-! ## Random destination inside a box (`getRandomBoxPoint` in `spoof.ts`) -/

/-- The padding computed by `getRandomBoxPoint` for one dimension: the source
applies `dim * p / 100` when `paddingPercentage` is defined with
`0 < p && p <= 100`, and `0` otherwise. -/
def paddingOf (dim : ℚ) (paddingPercentage : Option ℚ) : ℚ :=
  match paddingPercentage with
  | none => 0
  | some p => if 0 < p ∧ p ≤ 100 then dim * p / 100 else 0

/-- `getRandomBoxPoint({x, y, width, height}, options)` from `spoof.ts`:
`x + paddingWidth / 2 + Math.random() * (width - paddingWidth)` and
similarly for `y`; `rx`, `ry` are the two `Math.random()` draws. -/
def getRandomBoxPoint (box : BoundingBox ℚ) (paddingPercentage : Option ℚ) (rx ry : ℚ) :
    Vec ℚ :=
  ⟨box.x + paddingOf box.width paddingPercentage / 2 +
      rx * (box.width - paddingOf box.width paddingPercentage),
   box.y + paddingOf box.height paddingPercentage / 2 +
      ry * (box.height - paddingOf box.height paddingPercentage)⟩

/-- C7: for every padding percentage `0 ≤ p ≤ 100` the destination point is
`topLeft + padding/2 + random * (dimension - padding)` per coordinate with
`padding = dimension * p / 100`; and `p = 100` yields exactly the center of
the rectangle (while `p = 0` leaves the random draw ranging over the whole
dimension). -/
theorem random_box_point_formula (box : BoundingBox ℚ) (p rx ry : ℚ)
    (h0 : 0 ≤ p) (h100 : p ≤ 100) :
    getRandomBoxPoint box (some p) rx ry =
      ⟨box.x + (box.width * p / 100) / 2 + rx * (box.width - box.width * p / 100),
       box.y + (box.height * p / 100) / 2 + ry * (box.height - box.height * p / 100)⟩
    ∧ (p = 100 → getRandomBoxPoint box (some p) rx ry =
        ⟨box.x + box.width / 2, box.y + box.height / 2⟩) := by
  constructor
  · rcases eq_or_lt_of_le h0 with h | h
    · simp [getRandomBoxPoint, paddingOf, ← h]
    · simp [getRandomBoxPoint, paddingOf, h, h100]
  · intro hp
    subst hp
    simp only [getRandomBoxPoint, paddingOf, if_pos (by norm_num : (0:ℚ) < 100 ∧ (100:ℚ) ≤ 100)]
    rw [Vec.mk.injEq]
    constructor <;> ring

/-- C7 witness: the destination formula evaluated at a concrete box with
`paddingPercentage = 100`. -/
theorem random_box_point_formula_witness :
    ((0 : ℚ) ≤ 100 ∧ (100 : ℚ) ≤ 100)
    ∧ getRandomBoxPoint ⟨1, 2, 10, 20⟩ (some 100) (1/3) (1/4) =
      ⟨1 + (10 * 100 / 100) / 2 + (1/3) * (10 - 10 * 100 / 100),
       2 + (20 * 100 / 100) / 2 + (1/4) * (20 - 20 * 100 / 100)⟩ :=
  ⟨⟨by norm_num, by norm_num⟩,
   (random_box_point_formula ⟨1, 2, 10, 20⟩ 100 (1/3) (1/4) (by norm_num) (by norm_num)).1⟩

/-! ## Trajectory dispatch (`GhostCursor.moveMouse` in `spoof.ts`)

`moveMouse` iterates over the path's points; each `Input.dispatchMouseEvent`
either succeeds, throws while the browser is still connected (logged,
loop continues), or throws with the browser disconnected (the function
returns immediately).  The outcome of each dispatch is an oracle attached to
the point; the function below returns the final value of `this.location`,
and it returns it normally — no error is propagated in any case. -/

/-- Outcome of one `Input.dispatchMouseEvent` call: success, a throw with the
browser still connected, or a throw with the browser disconnected. -/
inductive DispatchResult where
  | ok
  | errConnected
  | errDisconnected
deriving DecidableEq

/-- The `for (const v of vectors)` loop of `GhostCursor.moveMouse`: on
success store `this.location = v` and continue; on a connected error keep
the location and continue; on a disconnected error return at once.  Returns
the final `this.location`. -/
def moveMouseLoop (abortOnMove moving : Bool) :
    List (Vec ℚ × DispatchResult) → Vec ℚ → Vec ℚ
  | [], loc => loc
  | (v, r) :: rest, loc =>
    if abortOnMove && moving then loc
    else
      match r with
      | .ok => moveMouseLoop abortOnMove moving rest v
      | .errConnected => moveMouseLoop abortOnMove moving rest loc
      | .errDisconnected => loc

/-- The points that get successfully dispatched: those marked `ok` before the
first disconnected dispatch (everything after a disconnect is skipped). -/
def successfulPoints (events : List (Vec ℚ × DispatchResult)) : List (Vec ℚ) :=
  (events.takeWhile fun e =>
      match e.2 with
      | .errDisconnected => false
      | _ => true).filterMap fun e =>
    match e.2 with
    | .ok => some e.1
    | _ => none

/-- C10: after the dispatch loop (here for a directed move, so without the
abort-on-move interruption), the stored cursor location is exactly the last
successfully dispatched point — a failed dispatch leaves the location at the
last success and the loop continues, and a disconnected dispatch skips all
remaining points; the loop always returns normally, so no error reaches the
caller. -/
theorem dispatch_location_last_success (events : List (Vec ℚ × DispatchResult)) (loc : Vec ℚ) :
    moveMouseLoop false false events loc = (successfulPoints events).getLastD loc := by
  induction events generalizing loc with
  | nil => rfl
  | cons e rest ih =>
    obtain ⟨v, r⟩ := e
    cases r
    · show moveMouseLoop false false rest v =
        ((v, DispatchResult.ok) :: rest |> successfulPoints).getLastD loc
      have hsucc : successfulPoints ((v, DispatchResult.ok) :: rest) =
          v :: successfulPoints rest := rfl
      rw [hsucc, List.getLastD_cons]
      exact ih v
    · show moveMouseLoop false false rest loc =
        ((v, DispatchResult.errConnected) :: rest |> successfulPoints).getLastD loc
      have hsucc : successfulPoints ((v, DispatchResult.errConnected) :: rest) =
          successfulPoints rest := rfl
      rw [hsucc]
      exact ih loc
    · rfl

/-! ## Stepwise wheel scroll (`GhostCursor.scroll` in `spoof.ts`)

`scroll(delta)` splits the absolute delta on the axis with the larger
distance into `numSteps = floor(larger / stepSize)` wheel events of
`stepSize` pixels (the last one augmented by the remainder `larger %
stepSize`), with the shorter axis advanced by `floor(shorter / numSteps)`
per step plus its remainder on the last step; signs are restored per axis.
`stepSize` is the clamped scroll speed below 90 and is scaled linearly up to
the whole remaining distance as the speed approaches 100. -/

/-- Modelled from the spec: `scale` of the current `math.ts` is not under
`src/`; per the spec it maps a value linearly from one range onto another so
that at `scrollSpeed = 100` the step covers the whole remaining distance
(`scale(v, [a, b], [c, d]) = c + (v - a) * (d - c) / (b - a)`). -/
def scale (v a b c d : ℚ) : ℚ := c + (v - a) * (d - c) / (b - a)

/-- `clamp(optionsResolved.scrollSpeed, 1, 100)` in `scroll`. -/
def scrollSpeedClamped (scrollSpeed : ℚ) : ℚ := clamp scrollSpeed 1 100

/-- `largerDistance`: the larger of the two absolute deltas (the source
compares with `deltaX > deltaY` after taking absolute values). -/
def scrollLarger (dx dy : ℚ) : ℚ := if |dx| > |dy| then |dx| else |dy|

/-- `shorterDistance`: the other absolute delta. -/
def scrollShorter (dx dy : ℚ) : ℚ := if |dx| > |dy| then |dy| else |dx|

/-- `largerDistanceScrollStep`: the scroll speed itself below
`EXP_SCALE_START = 90`, otherwise `scale(speed, [90, 100], [90, larger])`. -/
def scrollStepSize (dx dy scrollSpeed : ℚ) : ℚ :=
  let speed := scrollSpeedClamped scrollSpeed
  if speed < 90 then speed else scale speed 90 100 90 (scrollLarger dx dy)

/-- `numSteps = Math.floor(largerDistance / largerDistanceScrollStep)`
(clamped to 0 when negative — the loop then simply runs zero times, as in
the source). -/
def scrollNumSteps (dx dy scrollSpeed : ℚ) : ℕ :=
  (⌊scrollLarger dx dy / scrollStepSize dx dy scrollSpeed⌋).toNat

/-- `largerDistanceRemainder = largerDistance % largerDistanceScrollStep`. -/
def scrollLrem (dx dy scrollSpeed : ℚ) : ℚ :=
  scrollLarger dx dy - scrollStepSize dx dy scrollSpeed * scrollNumSteps dx dy scrollSpeed

/-- `shorterDistanceScrollStep = Math.floor(shorterDistance / numSteps)`. -/
def scrollSstep (dx dy scrollSpeed : ℚ) : ℤ :=
  ⌊scrollShorter dx dy / (scrollNumSteps dx dy scrollSpeed : ℚ)⌋

/-- `shorterDistanceRemainder = shorterDistance % numSteps`. -/
def scrollSrem (dx dy scrollSpeed : ℚ) : ℚ :=
  scrollShorter dx dy - (scrollNumSteps dx dy scrollSpeed : ℚ) * scrollSstep dx dy scrollSpeed

/-- The wheel event dispatched at loop index `i` of `scroll`: the per-step
amounts, augmented by the remainders when `i === numSteps - 1`, assigned to
the axes according to which delta is larger and multiplied by the direction
signs. -/
def scrollStepVec (dx dy scrollSpeed : ℚ) (i : ℕ) : Vec ℚ :=
  let n := scrollNumSteps dx dy scrollSpeed
  let long : ℚ := if i = n - 1
    then scrollStepSize dx dy scrollSpeed + scrollLrem dx dy scrollSpeed
    else scrollStepSize dx dy scrollSpeed
  let short : ℚ := if i = n - 1
    then (scrollSstep dx dy scrollSpeed : ℚ) + scrollSrem dx dy scrollSpeed
    else (scrollSstep dx dy scrollSpeed : ℚ)
  let xDir : ℚ := if dx < 0 then -1 else 1
  let yDir : ℚ := if dy < 0 then -1 else 1
  if |dx| > |dy| then ⟨long * xDir, short * yDir⟩ else ⟨short * xDir, long * yDir⟩

/-- The full list of wheel events dispatched by `scroll({x: dx, y: dy})`. -/
def scrollSteps (dx dy scrollSpeed : ℚ) : List (Vec ℚ) :=
  (List.range (scrollNumSteps dx dy scrollSpeed)).map (scrollStepVec dx dy scrollSpeed)

lemma sum_if_last (n : ℕ) (h : 1 ≤ n) (a b : ℚ) :
    ((List.range n).map fun i => if i = n - 1 then a else b).sum = (n - 1 : ℕ) * b + a := by
  obtain ⟨m, rfl⟩ : ∃ m, n = m + 1 := ⟨n - 1, by omega⟩
  rw [List.range_succ, List.map_append, List.sum_append]
  simp only [Nat.add_sub_cancel]
  have h1 : (List.range m).map (fun i => if i = m then a else b) =
      (List.range m).map fun _ => b := by
    apply List.map_congr_left
    intro i hi
    rw [List.mem_range] at hi
    simp [Nat.ne_of_lt hi]
  rw [h1, List.map_const', List.sum_replicate, List.length_range]
  simp [smul_eq_mul]

lemma abs_mul_dir (d : ℚ) : |d| * (if d < 0 then (-1 : ℚ) else 1) = d := by
  rcases lt_or_le d 0 with hd | hd
  · rw [abs_of_neg hd, if_pos hd]
    ring
  · rw [abs_of_nonneg hd, if_neg (not_lt.mpr hd)]
    ring

/-- C8 (amended): whenever at least one wheel step is dispatched, the
dispatched steps sum exactly to the requested delta on each axis (so
`scrollTo({x: 400, y: 200})` from `(0, 0)` lands exactly on
`{top: 200, left: 400}`), and with `scrollSpeed = 100` the whole distance is
covered by a single dispatched step.  When the larger distance is smaller
than the step size, `numSteps = 0` and nothing is dispatched at all. -/
theorem scroll_steps_sum (dx dy scrollSpeed : ℚ)
    (h : 1 ≤ scrollNumSteps dx dy scrollSpeed) :
    ((scrollSteps dx dy scrollSpeed).map Vec.x).sum = dx
    ∧ ((scrollSteps dx dy scrollSpeed).map Vec.y).sum = dy
    ∧ (scrollSpeed = 100 → (scrollSteps dx dy scrollSpeed).length = 1) := by
  have hcast : ((scrollNumSteps dx dy scrollSpeed - 1 : ℕ) : ℚ) =
      (scrollNumSteps dx dy scrollSpeed : ℚ) - 1 := by
    push_cast [Nat.cast_sub h]
    ring
  have hlongSum : ∀ dir : ℚ, ((List.range (scrollNumSteps dx dy scrollSpeed)).map fun i =>
      (if i = scrollNumSteps dx dy scrollSpeed - 1
        then scrollStepSize dx dy scrollSpeed + scrollLrem dx dy scrollSpeed
        else scrollStepSize dx dy scrollSpeed) * dir).sum =
      scrollLarger dx dy * dir := by
    intro dir
    simp only [ite_mul]
    rw [sum_if_last _ h, hcast, scrollLrem]
    ring
  have hshortSum : ∀ dir : ℚ, ((List.range (scrollNumSteps dx dy scrollSpeed)).map fun i =>
      (if i = scrollNumSteps dx dy scrollSpeed - 1
        then (scrollSstep dx dy scrollSpeed : ℚ) + scrollSrem dx dy scrollSpeed
        else (scrollSstep dx dy scrollSpeed : ℚ)) * dir).sum =
      scrollShorter dx dy * dir := by
    intro dir
    simp only [ite_mul]
    rw [sum_if_last _ h, hcast, scrollSrem]
    ring
  refine ⟨?_, ?_, ?_⟩
  · by_cases hbig : |dx| > |dy|
    · have hmap : (scrollSteps dx dy scrollSpeed).map Vec.x =
          (List.range (scrollNumSteps dx dy scrollSpeed)).map fun i =>
            (if i = scrollNumSteps dx dy scrollSpeed - 1
              then scrollStepSize dx dy scrollSpeed + scrollLrem dx dy scrollSpeed
              else scrollStepSize dx dy scrollSpeed) * (if dx < 0 then (-1 : ℚ) else 1) := by
        rw [scrollSteps, List.map_map]
        apply List.map_congr_left
        intro i _
        simp [scrollStepVec, hbig]
      rw [hmap, hlongSum]
      rw [scrollLarger, if_pos hbig]
      exact abs_mul_dir dx
    · have hmap : (scrollSteps dx dy scrollSpeed).map Vec.x =
          (List.range (scrollNumSteps dx dy scrollSpeed)).map fun i =>
            (if i = scrollNumSteps dx dy scrollSpeed - 1
              then (scrollSstep dx dy scrollSpeed : ℚ) + scrollSrem dx dy scrollSpeed
              else (scrollSstep dx dy scrollSpeed : ℚ)) * (if dx < 0 then (-1 : ℚ) else 1) := by
        rw [scrollSteps, List.map_map]
        apply List.map_congr_left
        intro i _
        simp [scrollStepVec, hbig]
      rw [hmap, hshortSum]
      rw [scrollShorter, if_neg hbig]
      exact abs_mul_dir dx
  · by_cases hbig : |dx| > |dy|
    · have hmap : (scrollSteps dx dy scrollSpeed).map Vec.y =
          (List.range (scrollNumSteps dx dy scrollSpeed)).map fun i =>
            (if i = scrollNumSteps dx dy scrollSpeed - 1
              then (scrollSstep dx dy scrollSpeed : ℚ) + scrollSrem dx dy scrollSpeed
              else (scrollSstep dx dy scrollSpeed : ℚ)) * (if dy < 0 then (-1 : ℚ) else 1) := by
        rw [scrollSteps, List.map_map]
        apply List.map_congr_left
        intro i _
        simp [scrollStepVec, hbig]
      rw [hmap, hshortSum]
      rw [scrollShorter, if_pos hbig]
      exact abs_mul_dir dy
    · have hmap : (scrollSteps dx dy scrollSpeed).map Vec.y =
          (List.range (scrollNumSteps dx dy scrollSpeed)).map fun i =>
            (if i = scrollNumSteps dx dy scrollSpeed - 1
              then scrollStepSize dx dy scrollSpeed + scrollLrem dx dy scrollSpeed
              else scrollStepSize dx dy scrollSpeed) * (if dy < 0 then (-1 : ℚ) else 1) := by
        rw [scrollSteps, List.map_map]
        apply List.map_congr_left
        intro i _
        simp [scrollStepVec, hbig]
      rw [hmap, hlongSum]
      rw [scrollLarger, if_neg hbig]
      exact abs_mul_dir dy
  · intro h100
    subst h100
    have hstep : scrollStepSize dx dy 100 = scrollLarger dx dy := by
      rw [scrollStepSize, scrollSpeedClamped, clamp]
      norm_num [scale]
    have hLne : scrollLarger dx dy ≠ 0 := by
      intro h0
      rw [scrollNumSteps, hstep, h0] at h
      norm_num at h
    have hn1 : scrollNumSteps dx dy 100 = 1 := by
      rw [scrollNumSteps, hstep, div_self hLne]
      norm_num
    rw [scrollSteps, List.length_map, List.length_range, hn1]

/-- C8 counterexample: `scroll({x: 0, y: 50})` with `scrollSpeed = 60`
computes `numSteps = floor(50 / 60) = 0`, dispatches no wheel event at all,
and the dispatched total is 0, not the requested 50. -/
theorem scroll_small_delta_no_steps :
    scrollSteps 0 50 60 = [] ∧ ((scrollSteps 0 50 60).map Vec.y).sum ≠ 50 := by
  have hn : scrollNumSteps 0 50 60 = 0 := by
    rw [scrollNumSteps, scrollLarger, scrollStepSize, scrollSpeedClamped, clamp]
    norm_num
  constructor
  · rw [scrollSteps, hn]
    rfl
  · rw [scrollSteps, hn]
    norm_num

/-- C8 witness: the spec's scenario — delta `(400, 200)` at the default
`scrollSpeed = 100` dispatches a single step summing exactly to the delta. -/
theorem scroll_steps_sum_witness :
    1 ≤ scrollNumSteps 400 200 100
    ∧ ((scrollSteps 400 200 100).map Vec.x).sum = 400
    ∧ ((scrollSteps 400 200 100).map Vec.y).sum = 200
    ∧ ((100 : ℚ) = 100 → (scrollSteps 400 200 100).length = 1) := by
  have hL : scrollLarger (400 : ℚ) 200 = 400 := by
    rw [scrollLarger]
    norm_num
  have h : 1 ≤ scrollNumSteps 400 200 100 := by
    rw [scrollNumSteps, scrollStepSize, scrollSpeedClamped, clamp, hL, scale]
    norm_num
  exact ⟨h, (scroll_steps_sum 400 200 100 h).1, (scroll_steps_sum 400 200 100 h).2.1,
    (scroll_steps_sum 400 200 100 h).2.2⟩

/-! ## Per-point timestamps (`generateTimestamps` in `spoof.ts`)

With `useTimestamps`, `clampPositive` hands the clamped points to
`generateTimestamps`: point 0 gets `Date.now()` (the argument `t0`); every
later point `i` gets the previous timestamp plus
`timeToMove(P0, P1, P2, P3, vectors.length)` — a trapezoidal integration of
`bezierCurveSpeed` divided by the speed factor
(`options.moveSpeed ?? (Math.random() * 0.5 + 0.5)`, the argument `speed`)
and rounded with `Math.round`.  `P0..P3` are the neighbouring points,
extrapolated past the end of the sequence. -/

noncomputable section

/-- Modelled from the spec: `extrapolate` of the current `math.ts` is not
under `src/`; the spec's design notes describe the boundary handling as
linear velocity extrapolation of the last segment, i.e.
`extrapolate(a, b) = b + (b - a)`. -/
def extrapolate (a b : Vec ℝ) : Vec ℝ := add b (sub b a)

/-- `bezierCurveSpeed(t, P0, P1, P2, P3)` from `math.ts`: the magnitude of
the derivative of the cubic Bezier at parameter `t`. -/
def bezierCurveSpeed (t : ℝ) (P0 P1 P2 P3 : Vec ℝ) : ℝ :=
  let B1 := 3 * (1 - t) ^ 2 * (P1.x - P0.x) + 6 * (1 - t) * t * (P2.x - P1.x)
    + 3 * t ^ 2 * (P3.x - P2.x)
  let B2 := 3 * (1 - t) ^ 2 * (P1.y - P0.y) + 6 * (1 - t) * t * (P2.y - P1.y)
    + 3 * t ^ 2 * (P3.y - P2.y)
  Real.sqrt (B1 ^ 2 + B2 ^ 2)

/-- `timeToMove` from `generateTimestamps`: `dt = 1 / samples`; the loop
`for (t = 0; t < 1; t += dt)` visits `t = k · dt` for `k = 0 .. samples - 1`
and accumulates `(speed(t · dt) + speed(t)) · dt / 2`; the total is divided
by the speed factor and rounded with `Math.round`. -/
def timeToMove (P0 P1 P2 P3 : Vec ℝ) (samples : ℕ) (speed : ℝ) : ℤ :=
  let dt : ℝ := 1 / samples
  jsRound ((∑ k ∈ Finset.range samples,
    (bezierCurveSpeed ((k * dt) * dt) P0 P1 P2 P3 + bezierCurveSpeed (k * dt) P0 P1 P2 P3)
      * dt / 2) / speed)

/-- The millisecond delta added to the timestamp of point `i ≥ 1`:
`P0 = vectors[i-1]`, `P1 = vectors[i]`, `P2`, `P3` the following points or
their extrapolations past the end of the sequence, integrated over
`samples = vectors.length`. -/
def tsDelta (vectors : List (Vec ℝ)) (speed : ℝ) (i : ℕ) : ℤ :=
  let P0 := vectors.getD (i - 1) ⟨0, 0⟩
  let P1 := vectors.getD i ⟨0, 0⟩
  let P2 := if i + 1 < vectors.length then vectors.getD (i + 1) ⟨0, 0⟩ else extrapolate P0 P1
  let P3 := if i + 2 < vectors.length then vectors.getD (i + 2) ⟨0, 0⟩ else extrapolate P1 P2
  timeToMove P0 P1 P2 P3 vectors.length speed

/-- The timestamp of point `i`: `t0` (the `Date.now()` value) for point 0,
the previous timestamp plus that point's delta afterwards. -/
def timestampAt (vectors : List (Vec ℝ)) (speed : ℝ) (t0 : ℤ) : ℕ → ℤ
  | 0 => t0
  | i + 1 => timestampAt vectors speed t0 i + tsDelta vectors speed (i + 1)

/-- `generateTimestamps(vectors, options)`: each point paired with its
cumulative timestamp. -/
def generateTimestamps (vectors : List (Vec ℝ)) (speed : ℝ) (t0 : ℤ) : List (Vec ℝ × ℤ) :=
  (List.range vectors.length).map fun i => (vectors.getD i ⟨0, 0⟩, timestampAt vectors speed t0 i)

lemma timeToMove_nonneg (P0 P1 P2 P3 : Vec ℝ) (samples : ℕ) (speed : ℝ)
    (hs : 0 < speed) : 0 ≤ timeToMove P0 P1 P2 P3 samples speed := by
  simp only [timeToMove, jsRound]
  have htot : (0 : ℝ) ≤ ∑ k ∈ Finset.range samples,
      (bezierCurveSpeed ((k * (1 / samples)) * (1 / samples)) P0 P1 P2 P3
        + bezierCurveSpeed (k * (1 / samples)) P0 P1 P2 P3) * (1 / samples) / 2 := by
    apply Finset.sum_nonneg
    intro k _
    have h1 : (0 : ℝ) ≤ bezierCurveSpeed ((k * (1 / samples)) * (1 / samples)) P0 P1 P2 P3 :=
      Real.sqrt_nonneg _
    have h2 : (0 : ℝ) ≤ bezierCurveSpeed (k * (1 / samples)) P0 P1 P2 P3 :=
      Real.sqrt_nonneg _
    have h3 : (0 : ℝ) ≤ 1 / (samples : ℝ) := by positivity
    positivity
  rw [Int.le_floor]
  push_cast
  have hq := div_nonneg htot hs.le
  linarith

lemma tsDelta_nonneg (vectors : List (Vec ℝ)) (speed : ℝ) (hs : 0 < speed) (i : ℕ) :
    0 ≤ tsDelta vectors speed i := by
  simp only [tsDelta]
  exact timeToMove_nonneg _ _ _ _ _ _ hs

/-- C5 (amended): whenever the speed factor is positive — which covers the
default case, where `moveSpeed` is unset and the factor is drawn from
`[0.5, 1)` — the timed points returned by `path` with `useTimestamps = true`
have monotonically non-decreasing timestamps, the first timestamp is exactly
the `Date.now()` wall-clock value taken at the call, and every subsequent
timestamp is the previous one plus that point's computed integer-millisecond
delta.  (A negative supplied `moveSpeed` is used as-is by
`generateTimestamps` and breaks monotonicity, see the counterexample.) -/
theorem timestamps_monotone (vectors : List (Vec ℝ)) (speed : ℝ) (t0 : ℤ) (hs : 0 < speed) :
    List.Sorted (· ≤ ·) ((generateTimestamps vectors speed t0).map Prod.snd)
    ∧ (vectors ≠ [] → ((generateTimestamps vectors speed t0).head?).map Prod.snd = some t0)
    ∧ ∀ i, timestampAt vectors speed t0 (i + 1) =
        timestampAt vectors speed t0 i + tsDelta vectors speed (i + 1) := by
  have hmono : Monotone (timestampAt vectors speed t0) := by
    apply monotone_nat_of_le_succ
    intro i
    have := tsDelta_nonneg vectors speed hs (i + 1)
    show timestampAt vectors speed t0 i ≤
      timestampAt vectors speed t0 i + tsDelta vectors speed (i + 1)
    omega
  refine ⟨?_, ?_, fun i => rfl⟩
  · have hmap : (generateTimestamps vectors speed t0).map Prod.snd =
        (List.range vectors.length).map (timestampAt vectors speed t0) := by
      rw [generateTimestamps, List.map_map]
      rfl
    rw [hmap, List.Sorted, List.pairwise_map]
    exact (List.pairwise_lt_range vectors.length).imp fun hab => hmono hab.le
  · intro hne
    obtain ⟨m, hm⟩ : ∃ m, vectors.length = m + 1 :=
      ⟨vectors.length - 1, by
        have := List.length_pos.mpr hne
        omega⟩
    rw [generateTimestamps, hm, List.range_succ_eq_map]
    rfl

/-- C5 witness: the amended timestamp properties evaluated at a concrete
one-point trajectory with speed factor 1. -/
theorem timestamps_monotone_witness :
    (0 : ℝ) < 1 ∧ List.Sorted (· ≤ ·) ((generateTimestamps [⟨1, 2⟩] 1 7).map Prod.snd) :=
  ⟨by norm_num, (timestamps_monotone [⟨1, 2⟩] 1 7 (by norm_num)).1⟩

lemma sqrt_eq_of_sq (a b : ℝ) (hb : 0 ≤ b) (h : a = b ^ 2) : Real.sqrt a = b := by
  rw [h]
  exact Real.sqrt_sq hb

lemma bezierCurveSpeed_line (t : ℝ) :
    bezierCurveSpeed t ⟨0, 0⟩ ⟨1, 0⟩ ⟨2, 0⟩ ⟨3, 0⟩ = 3 := by
  simp only [bezierCurveSpeed]
  exact sqrt_eq_of_sq _ 3 (by norm_num) (by ring)

/-- C5 counterexample: on the two-point trajectory `(0,0), (1,0)` with a
supplied `moveSpeed = -1` the only delta is `Math.round(3 / -1) = -3`, so
the timestamps are `[t0, t0 - 3]` — strictly decreasing, refuting the claim
as stated for all inputs. -/
theorem timestamps_decrease_neg_speed :
    ¬ List.Sorted (· ≤ ·)
      ((generateTimestamps [⟨0, 0⟩, ⟨1, 0⟩] (-1) 0).map Prod.snd) := by
  have hP : tsDelta [⟨0, 0⟩, ⟨1, 0⟩] (-1 : ℝ) 1 =
      timeToMove ⟨0, 0⟩ ⟨1, 0⟩ ⟨2, 0⟩ ⟨3, 0⟩ 2 (-1) := by
    simp only [tsDelta, extrapolate, add, sub, List.getD, List.length_cons, List.length_nil]
    norm_num
  have hdelta : tsDelta [⟨0, 0⟩, ⟨1, 0⟩] (-1 : ℝ) 1 = -3 := by
    rw [hP]
    simp only [timeToMove, jsRound]
    rw [Finset.sum_range_succ, Finset.sum_range_succ, Finset.sum_range_zero]
    norm_num [bezierCurveSpeed_line]
  have hlist : (generateTimestamps [⟨0, 0⟩, ⟨1, 0⟩] (-1) 0).map Prod.snd = [0, -3] := by
    simp [generateTimestamps, List.range_succ, timestampAt, hdelta]
  rw [hlist]
  decide

end

end GhostCursor
